import Mathlib

/-!
# Deployment descriptors and network configuration of `fann_contract`

A shallow embedding of the four JavaScript files of the repository:

* `hardhat.config.js`: the exported configuration object, as a function of
  the process environment (`process.env` after `dotenv` has loaded);
* `ignition/modules/RWAFactory.js`, `ignition/modules/SaleEscrow.js`,
  `ignition/modules/SaleMarketplace.js`: one deployment module each, built by
  `buildModule(id, m => m.contract(name, args))`.

The resolver that consumes the descriptors (`declareModule`, `resolve`) and
the selection of a network profile are not part of the repository; they are
modelled from the specification and marked as such.
-/

namespace FannContract

/-! ## Data model -/

/-- A constructor argument handed to `m.contract(name, args)`: a literal
JavaScript value, or the output of another module. -/
inductive ConstructorArgument where
  | Literal (value : String)
  | ModuleOutputReference (moduleId : String) (outputName : String)
  deriving DecidableEq, Repr

/-- One `buildModule(id, m => ...)` descriptor: the module id, the contract
named in `m.contract`, its argument array and the key of the returned
object. -/
structure DeploymentModule where
  id : String
  contractName : String
  args : List ConstructorArgument
  output : String
  deriving DecidableEq, Repr

deriving instance DecidableEq for Except

/-- Error kinds of the deployment tool chain. -/
inductive DeployError where
  | DuplicateModuleError (id : String)
  | CyclicDependencyError (members : List String)
  | UnknownModuleReferenceError (id : String)
  | UnknownNetworkError (name : String)
  | MissingConfigurationError (name : String)
  deriving DecidableEq, Repr

/-- True for a `Literal` argument. -/
def ConstructorArgument.isLiteral : ConstructorArgument → Bool
  | .Literal _ => true
  | .ModuleOutputReference _ _ => false

/-- The module ids an argument list refers to, in argument order. -/
def argRefs : List ConstructorArgument → List String
  | [] => []
  | .Literal _ :: rest => argRefs rest
  | .ModuleOutputReference moduleId _ :: rest => moduleId :: argRefs rest

/-- The module ids a module refers to. -/
def moduleRefs (m : DeploymentModule) : List String :=
  argRefs m.args

/-- The literal values of an argument list, in argument order. -/
def argLiterals : List ConstructorArgument → List String
  | [] => []
  | .Literal value :: rest => value :: argLiterals rest
  | .ModuleOutputReference _ _ :: rest => argLiterals rest

/-! ## `ignition/modules/RWAFactory.js` -/

namespace RWAFactory

def kycAddress : String := "0x2Ff598aaAb89aa39dfe597a9546a4d9B9F6a8B99"

/-- The value of `buildModule("RWATokenFactoryModule", m => ...)`:
`m.contract("RWATokenFactory", [kycAddress])`, returned as `{ factory }`. -/
def RWATokenFactoryModule : DeploymentModule :=
  { id := "RWATokenFactoryModule"
    contractName := "RWATokenFactory"
    args := [.Literal kycAddress]
    output := "factory" }

end RWAFactory

/-! ## `ignition/modules/SaleEscrow.js` -/

namespace SaleEscrow

def kycAddress : String := "0x2Ff598aaAb89aa39dfe597a9546a4d9B9F6a8B99"

def usdtAdress : String := "0xB9A0B25B041B950686b78B68E7156B8f38141F80"

/-- The value of `buildModule("SaleEscrowModule", m => ...)`:
`m.contract("SaleEscrow", [usdtAdress, kycAddress])`, returned as
`{ escrow }`. -/
def SaleEscrowModule : DeploymentModule :=
  { id := "SaleEscrowModule"
    contractName := "SaleEscrow"
    args := [.Literal usdtAdress, .Literal kycAddress]
    output := "escrow" }

end SaleEscrow

/-! ## `ignition/modules/SaleMarketplace.js` -/

namespace SaleMarketplace

def kycAddress : String := "0x2Ff598aaAb89aa39dfe597a9546a4d9B9F6a8B99"

def usdtAdress : String := "0xB9A0B25B041B950686b78B68E7156B8f38141F80"

def escrowAddress : String := "0x220878008d3eb7c94Afda696d2057462df66fdd8"

/-- The value of `buildModule("SaleMarketplaceModule", m => ...)`:
`m.contract("SaleMarketplace", [usdtAdress, kycAddress, escrowAddress])`,
returned as `{ sale }`. -/
def SaleMarketplaceModule : DeploymentModule :=
  { id := "SaleMarketplaceModule"
    contractName := "SaleMarketplace"
    args := [.Literal usdtAdress, .Literal kycAddress, .Literal escrowAddress]
    output := "sale" }

end SaleMarketplace

open RWAFactory (RWATokenFactoryModule)
open SaleEscrow (SaleEscrowModule)
open SaleMarketplace (SaleMarketplaceModule)

/-- The three deployment modules of the repository, in file order. -/
def repositoryModules : List DeploymentModule :=
  [RWATokenFactoryModule, SaleEscrowModule, SaleMarketplaceModule]

/-! ## `hardhat.config.js` -/

/-- The process environment: `process.env.NAME` is a string or `undefined`. -/
abbrev ProcessEnv := String → Option String

/-- Interpolation `${v}` of a template literal: `undefined` is rendered as
the text `undefined`. -/
def templateString : Option String → String
  | some s => s
  | none => "undefined"

/-- One entry of `networks`. -/
structure NetworkConfig where
  url : String
  accounts : List (Option String)
  deriving DecidableEq, Repr

/-- The `paths` entry. -/
structure PathsConfig where
  sources : String
  deriving DecidableEq, Repr

/-- The `etherscan` entry. -/
structure EtherscanConfig where
  apiKey : Option String
  deriving DecidableEq, Repr

/-- The object assigned to `module.exports`. The `networks` object is kept
as its list of keys and values, in source order. -/
structure HardhatConfig where
  solidity : String
  paths : PathsConfig
  networks : List (String × NetworkConfig)
  etherscan : EtherscanConfig
  deriving DecidableEq, Repr

/-- The object literal of `hardhat.config.js`, evaluated in `env`. -/
def module_exports (env : ProcessEnv) : HardhatConfig :=
  { solidity := "0.8.26"
    paths := { sources := "./contracts" }
    networks :=
      [ ("sepolia",
          { url := "https://sepolia.infura.io/v3/" ++ templateString (env "KEY")
            accounts := [env "PRIVATE_KEY"] }),
        ("mainnet",
          { url := "https://sepolia.infura.io/v3/" ++ templateString (env "KEY")
            accounts := [env "PRIVATE_KEY"] }) ]
    etherscan := { apiKey := env "ETHERSCAN_API_KEY" } }

/-- An environment in which `PRIVATE_KEY` holds a well-formed 32-byte key
and neither `KEY` nor `ETHERSCAN_API_KEY` is set. -/
def keyUnsetEnv : ProcessEnv := fun name =>
  if name = "PRIVATE_KEY" then
    some "0x0123456789abcdef0123456789abcdef0123456789abcdef0123456789abcdef"
  else
    none

/-- Address literal format: `0x` followed by exactly 40 hexadecimal digits. -/
def isHexDigit (c : Char) : Bool :=
  ('0' ≤ c && c ≤ '9') || ('a' ≤ c && c ≤ 'f') || ('A' ≤ c && c ≤ 'F')

def isAddressLiteral (s : String) : Bool :=
  match s.data with
  | '0' :: 'x' :: digits => digits.length == 40 && digits.all isHexDigit
  | _ => false

/-! ## The resolver (modelled from the specification) -/

/-- Modelled from the spec: `declareModule` is missing from the repository
(the scripts only call `buildModule`). It registers a module under a unique
id and fails with `DuplicateModuleError` when the id is already
registered. The registry is passed explicitly; the new module is appended. -/
def declareModule (registry : List DeploymentModule) (m : DeploymentModule) :
    Except DeployError (List DeploymentModule) :=
  if m.id ∈ registry.map DeploymentModule.id then
    .error (.DuplicateModuleError m.id)
  else
    .ok (registry ++ [m])

/-- Modelled from the spec: the declarations of a run, one `declareModule`
after the other, stopping at the first error. -/
def declareAll (registry : List DeploymentModule) :
    List DeploymentModule → Except DeployError (List DeploymentModule)
  | [] => .ok registry
  | m :: rest =>
    match declareModule registry m with
    | .error e => .error e
    | .ok registry' => declareAll registry' rest

/-- Modelled from the spec: a module is ready once every module it
refers to has been placed in the plan. -/
def isReady (placed : List DeploymentModule) (m : DeploymentModule) : Bool :=
  (moduleRefs m).all (fun r => decide (r ∈ placed.map DeploymentModule.id))

/-- Modelled from the spec: the first reference, in declaration and
argument order, that names no module of the input set. -/
def unknownReference (ms : List DeploymentModule) : Option String :=
  (ms.map moduleRefs).flatten.find? (fun r => decide (r ∉ ms.map DeploymentModule.id))

/-- Modelled from the spec: the members of a cycle among the modules that
cannot be ordered. Starting at `cur`, follow the first reference that is not
placed until a module id repeats; the ids from its first visit on are the
cycle. -/
def cycleMembers (placed pending : List DeploymentModule) :
    Nat → List String → String → List String
  | 0, path, _ => path
  | fuel + 1, path, cur =>
    if cur ∈ path then
      path.dropWhile (fun x => decide (x ≠ cur))
    else
      match pending.find? (fun m => decide (m.id = cur)) with
      | none => path ++ [cur]
      | some m =>
        match (moduleRefs m).find? (fun r => decide (r ∉ placed.map DeploymentModule.id)) with
        | none => path ++ [cur]
        | some r => cycleMembers placed pending fuel (path ++ [cur]) r

/-- Modelled from the spec: the ordering loop of `resolve`. Each round
moves the first ready module of `pending` (declaration order breaks ties) to
the end of `placed`; when no pending module is ready the graph has a cycle.
One round is needed per module, so `fuel` is the number of modules. -/
def order : Nat → List DeploymentModule → List DeploymentModule →
    Except DeployError (List DeploymentModule)
  | _, placed, [] => .ok placed
  | 0, placed, p :: pending =>
    .error (.CyclicDependencyError
      (cycleMembers placed (p :: pending) (pending.length + 2) [] p.id))
  | fuel + 1, placed, p :: pending =>
    match (p :: pending).find? (isReady placed) with
    | none =>
      .error (.CyclicDependencyError
        (cycleMembers placed (p :: pending) (pending.length + 2) [] p.id))
    | some m => order fuel (placed ++ [m]) ((p :: pending).erase m)

/-- Modelled from the spec: `resolve` is missing from the repository. It
orders the modules topologically along the edges given by their
`ModuleOutputReference` arguments, ties broken by declaration order; it
fails with `UnknownModuleReferenceError` when a reference names a module
that is not in the input, and with `CyclicDependencyError` when the graph
has a cycle. -/
def resolve (ms : List DeploymentModule) : Except DeployError (List DeploymentModule) :=
  match unknownReference ms with
  | some r => .error (.UnknownModuleReferenceError r)
  | none => order ms.length [] ms

/-- Modelled from the spec: selection of a network profile by name, which
is missing from the repository. The name is looked up among the keys of
`networks`; an unknown name fails with `UnknownNetworkError`. -/
def selectNetwork (config : HardhatConfig) (name : String) : Except DeployError NetworkConfig :=
  match config.networks.lookup name with
  | some profile => .ok profile
  | none => .error (.UnknownNetworkError name)

/-! ## Properties of a plan -/

/-- Module `a` depends on module `b` inside the set `ms`: both belong to
`ms` and an argument of `a` refers to the output of `b`. -/
def DependsOn (ms : List DeploymentModule) (a b : DeploymentModule) : Prop :=
  a ∈ ms ∧ b ∈ ms ∧ b.id ∈ moduleRefs a

/-- The dependency graph of `ms` is acyclic: no module reaches itself
along one or more dependency edges. -/
def Acyclic (ms : List DeploymentModule) : Prop :=
  ∀ m, ¬ Relation.TransGen (DependsOn ms) m m

/-- Every reference of `ms` names a module of `ms`. -/
def ReferencesKnown (ms : List DeploymentModule) : Prop :=
  ∀ m ∈ ms, ∀ r ∈ moduleRefs m, r ∈ ms.map DeploymentModule.id

/-- The topological-order invariant of a plan: every module referred to by
a module of the plan stands strictly earlier in the plan. -/
def TopologicallyOrdered (plan : List DeploymentModule) : Prop :=
  ∀ pre m post, plan = pre ++ m :: post →
    ∀ r ∈ moduleRefs m, r ∈ pre.map DeploymentModule.id

/-- Module `a` stands strictly before module `b` in `plan`. -/
def Precedes (plan : List DeploymentModule) (a b : DeploymentModule) : Prop :=
  a ∈ plan ∧ b ∈ plan ∧ plan.indexOf a < plan.indexOf b

instance (plan : List DeploymentModule) (a b : DeploymentModule) :
    Decidable (Precedes plan a b) := by
  unfold Precedes
  infer_instance

/-! ## Example inputs -/

/-- The marketplace descriptor of the specification's example: the third
argument refers to the output of the escrow module instead of holding an
address. -/
def linkedMarketplace : DeploymentModule :=
  { id := "SaleMarketplaceModule"
    contractName := "SaleMarketplace"
    args := [.Literal SaleMarketplace.usdtAdress, .Literal SaleMarketplace.kycAddress,
      .ModuleOutputReference "SaleEscrowModule" "escrow"]
    output := "sale" }

/-- The module set of the specification's example, the marketplace declared
first. -/
def linkedModules : List DeploymentModule :=
  [linkedMarketplace, RWATokenFactoryModule, SaleEscrowModule]

/-- An acyclic module set with a reference to a module outside the set. -/
def danglingModules : List DeploymentModule :=
  [linkedMarketplace, RWATokenFactoryModule]

/-- A rank that puts the marketplace above the other modules. -/
def linkedRank (id : String) : Nat :=
  if id = "SaleMarketplaceModule" then 1 else 0

/-! ## Lemmas about the resolver -/

theorem isReady_iff (placed : List DeploymentModule) (m : DeploymentModule) :
    isReady placed m = true ↔ ∀ r ∈ moduleRefs m, r ∈ placed.map DeploymentModule.id := by
  simp [isReady, List.all_eq_true]

theorem unknownReference_eq_none (ms : List DeploymentModule) (hk : ReferencesKnown ms) :
    unknownReference ms = none := by
  unfold unknownReference
  rw [List.find?_eq_none]
  intro r hr
  obtain ⟨l, hl, hrl⟩ := List.mem_flatten.1 hr
  obtain ⟨m, hm, rfl⟩ := List.mem_map.1 hl
  simpa using hk m hm r hrl

/-- In an acyclic set whose references are known, some pending module has
all its references placed. -/
theorem exists_ready (ms : List DeploymentModule) (hk : ReferencesKnown ms) (ha : Acyclic ms)
    (placed pending : List DeploymentModule) (hperm : (placed ++ pending).Perm ms)
    (hne : pending ≠ []) : ∃ m ∈ pending, isReady placed m = true := by
  classical
  let rel : {m // m ∈ ms} → {m // m ∈ ms} → Prop :=
    fun x a => Relation.TransGen (DependsOn ms) a.1 x.1
  haveI : IsTrans _ rel := ⟨fun a b c hab hbc => Relation.TransGen.trans hbc hab⟩
  haveI : IsIrrefl _ rel := ⟨fun a h => ha a.1 h⟩
  have hwf : WellFounded rel := Finite.wellFounded_of_trans_of_irrefl rel
  obtain ⟨p, hp⟩ := List.exists_mem_of_ne_nil pending hne
  have hpms : p ∈ ms := hperm.subset (List.mem_append_right _ hp)
  obtain ⟨a, haS, hmin⟩ := hwf.has_min {x | x.1 ∈ pending} ⟨⟨p, hpms⟩, hp⟩
  refine ⟨a.1, haS, ?_⟩
  rw [isReady_iff]
  intro ref href
  obtain ⟨d, hd, rfl⟩ := List.mem_map.1 (hk a.1 a.2 ref href)
  rcases List.mem_append.1 (hperm.mem_iff.2 hd) with h | h
  · exact List.mem_map_of_mem _ h
  · exact absurd (Relation.TransGen.single ⟨a.2, hd, href⟩) (hmin ⟨d, hd⟩ h)

theorem topologicallyOrdered_nil : TopologicallyOrdered [] := by
  intro pre m post h
  simp at h

/-- Appending a ready module keeps a plan topologically ordered. -/
theorem topologicallyOrdered_concat (placed : List DeploymentModule) (m : DeploymentModule)
    (hord : TopologicallyOrdered placed) (hready : isReady placed m = true) :
    TopologicallyOrdered (placed ++ [m]) := by
  intro pre x post h r hr
  rcases List.eq_nil_or_concat post with rfl | ⟨post', l, rfl⟩
  · obtain ⟨h1, h2⟩ := List.append_inj' h rfl
    simp only [List.cons.injEq, and_true] at h2
    subst h1 h2
    exact (isReady_iff _ _).1 hready r hr
  · have h' : placed ++ [m] = (pre ++ x :: post') ++ [l] := by simpa using h
    obtain ⟨h1, -⟩ := List.append_inj' h' rfl
    exact hord pre x post' h1 r hr

/-- The ordering loop succeeds on an acyclic set with known references,
and its result is a topologically ordered permutation of the set. -/
theorem order_ok (ms : List DeploymentModule) (hk : ReferencesKnown ms) (ha : Acyclic ms) :
    ∀ (fuel : Nat) (placed pending : List DeploymentModule), pending.length ≤ fuel →
      (placed ++ pending).Perm ms → TopologicallyOrdered placed →
      ∃ plan, order fuel placed pending = .ok plan ∧ plan.Perm ms ∧
        TopologicallyOrdered plan := by
  intro fuel
  induction fuel with
  | zero =>
    intro placed pending hlen hperm hord
    have hnil : pending = [] := List.length_eq_zero.1 (Nat.le_zero.1 hlen)
    subst hnil
    exact ⟨placed, by simp [order], by simpa using hperm, hord⟩
  | succ n ih =>
    intro placed pending hlen hperm hord
    cases pending with
    | nil => exact ⟨placed, by simp [order], by simpa using hperm, hord⟩
    | cons p rest =>
      obtain ⟨m, hm, hready⟩ := exists_ready ms hk ha placed (p :: rest) hperm (by simp)
      have hfind : ∃ m', (p :: rest).find? (isReady placed) = some m' := by
        cases h : (p :: rest).find? (isReady placed) with
        | some m' => exact ⟨m', rfl⟩
        | none =>
          rw [List.find?_eq_none] at h
          exact absurd hready (h m hm)
      obtain ⟨m', hm'⟩ := hfind
      have hmem : m' ∈ p :: rest := List.mem_of_find?_eq_some hm'
      have hr' : isReady placed m' = true := List.find?_some hm'
      have hstep : order (n + 1) placed (p :: rest) =
          order n (placed ++ [m']) ((p :: rest).erase m') := by
        simp only [order, hm']
      rw [hstep]
      apply ih
      · rw [List.length_erase_of_mem hmem]
        simp only [List.length_cons] at hlen ⊢
        omega
      · have h1 : (placed ++ [m'] ++ (p :: rest).erase m').Perm (placed ++ (p :: rest)) := by
          rw [List.append_assoc]
          exact List.Perm.append_left _ (List.perm_cons_erase hmem).symm
        exact h1.trans hperm
      · exact topologicallyOrdered_concat placed m' hord hr'

/-- A rank that decreases along every reference rules out cycles. -/
theorem acyclic_of_rank (ms : List DeploymentModule) (rank : String → Nat)
    (h : ∀ m ∈ ms, ∀ r ∈ moduleRefs m, rank r < rank m.id) : Acyclic ms := by
  have key : ∀ a b, Relation.TransGen (DependsOn ms) a b → rank b.id < rank a.id := by
    intro a b hab
    induction hab with
    | single hd => exact h a hd.1 _ hd.2.2
    | tail _ hd ih => exact lt_trans (h _ hd.1 _ hd.2.2) ih
  intro m hm
  exact lt_irrefl _ (key m m hm)

/-- On modules without references the ordering loop returns the pending
modules in declaration order. -/
theorem order_of_no_refs :
    ∀ (pending placed : List DeploymentModule), (∀ m ∈ pending, moduleRefs m = []) →
      order pending.length placed pending = .ok (placed ++ pending) := by
  intro pending
  induction pending with
  | nil => intro placed _; simp [order]
  | cons p rest ih =>
    intro placed h
    have hp : isReady placed p = true := by
      rw [isReady_iff, h p (List.mem_cons_self _ _)]
      intro r hr
      simp at hr
    have hfind : (p :: rest).find? (isReady placed) = some p := by
      simp [List.find?, hp]
    have hstep : order (rest.length + 1) placed (p :: rest) =
        order rest.length (placed ++ [p]) rest := by
      simp only [order, hfind, List.erase_cons_head]
    rw [List.length_cons, hstep, ih (placed ++ [p]) (fun m hm => h m (List.mem_cons_of_mem _ hm))]
    simp

/-- Without references `resolve` returns its input. -/
theorem resolve_of_no_refs (ms : List DeploymentModule) (h : ∀ m ∈ ms, moduleRefs m = []) :
    resolve ms = .ok ms := by
  have hk : ReferencesKnown ms := by
    intro m hm r hr
    rw [h m hm] at hr
    simp at hr
  unfold resolve
  rw [unknownReference_eq_none ms hk]
  simpa using order_of_no_refs ms [] h

theorem topologicallyOrdered_of_no_refs (ms : List DeploymentModule)
    (h : ∀ m ∈ ms, moduleRefs m = []) : TopologicallyOrdered ms := by
  intro pre m post hsplit r hr
  have hm : m ∈ ms := by rw [hsplit]; simp
  rw [h m hm] at hr
  simp at hr

theorem repositoryModules_no_refs : ∀ m ∈ repositoryModules, moduleRefs m = [] := by
  decide

theorem perm_repositoryModules_no_refs (p : List DeploymentModule)
    (hp : p.Perm repositoryModules) : ∀ m ∈ p, moduleRefs m = [] :=
  fun m hm => repositoryModules_no_refs m (hp.mem_iff.1 hm)

/-- A run of declarations with pairwise distinct ids, none registered
before, registers all of them in order. -/
theorem declareAll_of_nodup :
    ∀ (ms registry : List DeploymentModule),
      ((registry ++ ms).map DeploymentModule.id).Nodup →
      declareAll registry ms = .ok (registry ++ ms) := by
  intro ms
  induction ms with
  | nil => intro registry _; simp [declareAll]
  | cons m rest ih =>
    intro registry h
    have hnot : m.id ∉ registry.map DeploymentModule.id := by
      intro hmem
      rw [List.map_append, List.map_cons] at h
      exact (List.nodup_append.1 h).2.2 hmem (List.mem_cons_self _ _)
    have h' : ((registry ++ [m] ++ rest).map DeploymentModule.id).Nodup := by
      simpa using h
    simp only [declareAll, declareModule, if_neg hnot]
    rw [ih (registry ++ [m]) h']
    simp

/-- Declarations run one after the other. -/
theorem declareAll_append :
    ∀ (ms registry extra : List DeploymentModule),
      declareAll registry (ms ++ extra) =
        match declareAll registry ms with
        | .error e => .error e
        | .ok registry' => declareAll registry' extra := by
  intro ms
  induction ms with
  | nil => intro registry extra; simp [declareAll]
  | cons m rest ih =>
    intro registry extra
    simp only [List.cons_append, declareAll]
    cases declareModule registry m with
    | error e => rfl
    | ok r => exact ih r extra

/-! ## The claims -/

/-- C1, as stated, fails: the third constructor argument of the
SaleMarketplace module is the literal address
`0x220878008d3eb7c94Afda696d2057462df66fdd8`, not a reference to the output
of the SaleEscrow module, and the plan resolved for the declaration order
marketplace, factory, escrow keeps the marketplace before the escrow. -/
theorem marketplace_escrow_is_literal :
    SaleMarketplaceModule.args[2]? =
        some (.Literal "0x220878008d3eb7c94Afda696d2057462df66fdd8") ∧
      (¬ ∃ moduleId outputName, SaleMarketplaceModule.args[2]? =
        some (.ModuleOutputReference moduleId outputName)) ∧
      resolve [SaleMarketplaceModule, RWATokenFactoryModule, SaleEscrowModule] =
        .ok [SaleMarketplaceModule, RWATokenFactoryModule, SaleEscrowModule] ∧
      ¬ Precedes [SaleMarketplaceModule, RWATokenFactoryModule, SaleEscrowModule]
        SaleEscrowModule SaleMarketplaceModule := by
  refine ⟨by decide, ?_, by decide, by decide⟩
  rintro ⟨moduleId, outputName, h⟩
  simp [SaleMarketplaceModule] at h

/-- C1, amended: the constructor argument list of the SaleMarketplace module
has exactly three entries, the third is the literal address
`0x220878008d3eb7c94Afda696d2057462df66fdd8` and the module refers to no
other module; so every declaration order `p` of the three repository
modules resolves to the plan `p` itself, in which SaleEscrow stands before
SaleMarketplace only if it was declared first. -/
theorem marketplace_arguments (p : List DeploymentModule)
    (hp : p.Perm repositoryModules) :
    SaleMarketplaceModule.args.length = 3 ∧
      SaleMarketplaceModule.args[2]? =
        some (.Literal "0x220878008d3eb7c94Afda696d2057462df66fdd8") ∧
      moduleRefs SaleMarketplaceModule = [] ∧
      resolve p = .ok p := by
  refine ⟨by decide, by decide, by decide, ?_⟩
  exact resolve_of_no_refs p (perm_repositoryModules_no_refs p hp)

/-- Witness of C1, amended, at the declaration order escrow, marketplace,
factory. -/
theorem marketplace_arguments_witness :
    [SaleEscrowModule, SaleMarketplaceModule, RWATokenFactoryModule].Perm repositoryModules ∧
      SaleMarketplaceModule.args.length = 3 ∧
      SaleMarketplaceModule.args[2]? =
        some (.Literal "0x220878008d3eb7c94Afda696d2057462df66fdd8") ∧
      moduleRefs SaleMarketplaceModule = [] ∧
      resolve [SaleEscrowModule, SaleMarketplaceModule, RWATokenFactoryModule] =
        .ok [SaleEscrowModule, SaleMarketplaceModule, RWATokenFactoryModule] :=
  ⟨by decide, marketplace_arguments _ (by decide)⟩

/-- C2: the SaleEscrow module declares the contract `SaleEscrow` with
exactly the two literal arguments USDT address, KYC address, in this order,
and the first two arguments of the SaleMarketplace module are the same two
literals in the same order. -/
theorem escrow_arguments :
    SaleEscrowModule.contractName = "SaleEscrow" ∧
      SaleEscrowModule.args =
        [.Literal "0xB9A0B25B041B950686b78B68E7156B8f38141F80",
         .Literal "0x2Ff598aaAb89aa39dfe597a9546a4d9B9F6a8B99"] ∧
      SaleMarketplaceModule.args.take 2 = SaleEscrowModule.args := by
  decide

/-- C3, as stated, fails: the argument list of the factory module is not
empty. -/
theorem factory_arguments_nonempty :
    RWATokenFactoryModule.args ≠ [] ∧ RWATokenFactoryModule.args.length = 1 := by
  decide

/-- C3, amended: the factory module (`RWATokenFactoryModule`, contract
`RWATokenFactory`) is declared with exactly one constructor argument, the
literal KYC address `0x2Ff598aaAb89aa39dfe597a9546a4d9B9F6a8B99`. -/
theorem factory_arguments :
    RWATokenFactoryModule.id = "RWATokenFactoryModule" ∧
      RWATokenFactoryModule.contractName = "RWATokenFactory" ∧
      RWATokenFactoryModule.args =
        [.Literal "0x2Ff598aaAb89aa39dfe597a9546a4d9B9F6a8B99"] := by
  decide

/-- C4, the code at the failing input: with `KEY` and `ETHERSCAN_API_KEY`
unset and a well-formed `PRIVATE_KEY`, the file still builds and exports a
complete configuration object; the unset `KEY` is rendered as the text
`undefined` at the end of both urls and the explorer key is `undefined`.
No check of the three variables is made. -/
theorem module_exports_key_unset :
    keyUnsetEnv "KEY" = none ∧ keyUnsetEnv "ETHERSCAN_API_KEY" = none ∧
      module_exports keyUnsetEnv =
        { solidity := "0.8.26"
          paths := { sources := "./contracts" }
          networks :=
            [ ("sepolia",
                { url := "https://sepolia.infura.io/v3/undefined"
                  accounts :=
                    [some "0x0123456789abcdef0123456789abcdef0123456789abcdef0123456789abcdef"] }),
              ("mainnet",
                { url := "https://sepolia.infura.io/v3/undefined"
                  accounts :=
                    [some "0x0123456789abcdef0123456789abcdef0123456789abcdef0123456789abcdef"] }) ]
          etherscan := { apiKey := none } } := by
  decide

/-- C5: selecting a network profile by name succeeds for `sepolia` and
for `mainnet`, with a profile made of a url and an accounts list, and fails
with `UnknownNetworkError` for every other name; the keys of the networks
table are exactly these two names. -/
theorem selectNetwork_spec (env : ProcessEnv) (name : String) :
    (module_exports env).networks.map Prod.fst = ["sepolia", "mainnet"] ∧
      selectNetwork (module_exports env) name =
        if name = "sepolia" ∨ name = "mainnet" then
          .ok { url := "https://sepolia.infura.io/v3/" ++ templateString (env "KEY")
                accounts := [env "PRIVATE_KEY"] }
        else
          .error (.UnknownNetworkError name) := by
  refine ⟨rfl, ?_⟩
  by_cases h1 : name = "sepolia"
  · subst h1
    simp [selectNetwork, module_exports, List.lookup]
  · by_cases h2 : name = "mainnet"
    · subst h2
      simp [selectNetwork, module_exports, List.lookup]
    · have hb1 : (name == "sepolia") = false := by simpa using h1
      have hb2 : (name == "mainnet") = false := by simpa using h2
      simp [selectNetwork, module_exports, List.lookup, h1, h2, hb1, hb2]

/-- C6, as stated, fails: the set made of the linked marketplace and the
factory is acyclic, yet `resolve` returns no ordering for it, because the
marketplace refers to an escrow module that is not in the set. -/
theorem resolve_dangling_reference :
    Acyclic danglingModules ∧
      resolve danglingModules = .error (.UnknownModuleReferenceError "SaleEscrowModule") ∧
      ¬ ∃ plan, resolve danglingModules = .ok plan := by
  have hres : resolve danglingModules =
      .error (.UnknownModuleReferenceError "SaleEscrowModule") := by decide
  refine ⟨acyclic_of_rank danglingModules linkedRank (by decide), hres, ?_⟩
  rintro ⟨plan, hplan⟩
  rw [hres] at hplan
  cases hplan

/-- C6, amended: for every acyclic set of deployment modules in which every
reference names a module of the set, `resolve` produces an ordering that
contains each module exactly once and in which every referenced module
stands strictly earlier than the module referring to it; in particular this
holds for the three modules of the repository. -/
theorem resolve_topological :
    (∀ ms : List DeploymentModule, ReferencesKnown ms → Acyclic ms →
      ∃ plan, resolve ms = .ok plan ∧ plan.Perm ms ∧ TopologicallyOrdered plan) ∧
    (ReferencesKnown repositoryModules ∧ Acyclic repositoryModules ∧
      ∃ plan, resolve repositoryModules = .ok plan ∧ plan.Perm repositoryModules ∧
        TopologicallyOrdered plan) := by
  have general : ∀ ms : List DeploymentModule, ReferencesKnown ms → Acyclic ms →
      ∃ plan, resolve ms = .ok plan ∧ plan.Perm ms ∧ TopologicallyOrdered plan := by
    intro ms hk ha
    unfold resolve
    rw [unknownReference_eq_none ms hk]
    exact order_ok ms hk ha ms.length [] ms (le_refl _) (by simp) topologicallyOrdered_nil
  have hk : ReferencesKnown repositoryModules := by
    unfold ReferencesKnown
    decide
  have ha : Acyclic repositoryModules :=
    acyclic_of_rank repositoryModules (fun _ => 0) (by decide)
  exact ⟨general, hk, ha, general repositoryModules hk ha⟩

/-- Witness of C6, amended, at the module set of the specification's
example: the marketplace, declared first, refers to the escrow and is
planned last. -/
theorem resolve_topological_witness :
    ReferencesKnown linkedModules ∧ Acyclic linkedModules ∧
      resolve linkedModules =
        .ok [RWATokenFactoryModule, SaleEscrowModule, linkedMarketplace] ∧
      ∃ plan, resolve linkedModules = .ok plan ∧ plan.Perm linkedModules ∧
        TopologicallyOrdered plan :=
  have hk : ReferencesKnown linkedModules := by
    unfold ReferencesKnown
    decide
  have ha : Acyclic linkedModules := acyclic_of_rank linkedModules linkedRank (by decide)
  ⟨hk, ha, by decide, resolve_topological.1 linkedModules hk ha⟩

/-- C7: the ids of the three deployment modules are pairwise distinct, so
declaring the three modules in any order `p` succeeds and registers them,
while declaring any one of them again afterwards fails with
`DuplicateModuleError`. -/
theorem declare_repository_modules (p : List DeploymentModule)
    (hp : p.Perm repositoryModules) :
    repositoryModules.map DeploymentModule.id =
        ["RWATokenFactoryModule", "SaleEscrowModule", "SaleMarketplaceModule"] ∧
      (repositoryModules.map DeploymentModule.id).Nodup ∧
      declareAll [] p = .ok p ∧
      ∀ m ∈ p, declareModule p m = .error (.DuplicateModuleError m.id) ∧
        declareAll [] (p ++ [m]) = .error (.DuplicateModuleError m.id) := by
  have hnodup : (repositoryModules.map DeploymentModule.id).Nodup := by decide
  have hp' : (([] ++ p).map DeploymentModule.id).Nodup := by
    simpa using (hp.map DeploymentModule.id).nodup_iff.2 hnodup
  have hall : declareAll [] p = .ok p := by
    simpa using declareAll_of_nodup p [] hp'
  refine ⟨by decide, hnodup, hall, ?_⟩
  intro m hm
  have hdup : declareModule p m = .error (.DuplicateModuleError m.id) := by
    simp only [declareModule, if_pos (List.mem_map_of_mem DeploymentModule.id hm)]
  refine ⟨hdup, ?_⟩
  rw [declareAll_append, hall]
  simp only [declareAll, hdup]

/-- Witness of C7 at the declaration order marketplace, factory, escrow. -/
theorem declare_repository_modules_witness :
    [SaleMarketplaceModule, RWATokenFactoryModule, SaleEscrowModule].Perm repositoryModules ∧
      declareAll [] [SaleMarketplaceModule, RWATokenFactoryModule, SaleEscrowModule] =
        .ok [SaleMarketplaceModule, RWATokenFactoryModule, SaleEscrowModule] ∧
      declareAll []
          ([SaleMarketplaceModule, RWATokenFactoryModule, SaleEscrowModule] ++
            [RWATokenFactoryModule]) =
        .error (.DuplicateModuleError "RWATokenFactoryModule") :=
  have hp : [SaleMarketplaceModule, RWATokenFactoryModule, SaleEscrowModule].Perm
      repositoryModules := by decide
  ⟨hp, (declare_repository_modules _ hp).2.2.1,
    ((declare_repository_modules _ hp).2.2.2 RWATokenFactoryModule (by decide)).2⟩

/-- C8: every address literal passed as a constructor argument in the
three deployment modules is `0x` followed by exactly 40 hexadecimal digits,
42 characters in all; and every constructor argument there is such a
literal. -/
theorem address_literals_wellformed :
    (repositoryModules.map (fun m => argLiterals m.args)).flatten =
        [ "0x2Ff598aaAb89aa39dfe597a9546a4d9B9F6a8B99",
          "0xB9A0B25B041B950686b78B68E7156B8f38141F80",
          "0x2Ff598aaAb89aa39dfe597a9546a4d9B9F6a8B99",
          "0xB9A0B25B041B950686b78B68E7156B8f38141F80",
          "0x2Ff598aaAb89aa39dfe597a9546a4d9B9F6a8B99",
          "0x220878008d3eb7c94Afda696d2057462df66fdd8" ] ∧
      (∀ m ∈ repositoryModules, ∀ v ∈ argLiterals m.args,
        isAddressLiteral v = true ∧ v.length = 42) ∧
      (∀ m ∈ repositoryModules, m.args = (argLiterals m.args).map .Literal) := by
  decide

/-- C9: every constructor argument of every one of the three deployment
modules is a literal, so for every declaration order `p` of the three
modules the dependency graph has no edge and is acyclic, every reference is
known, `resolve` fails with no error and returns `p`, and `p` satisfies the
topological-order invariant. -/
theorem repository_modules_literal (p : List DeploymentModule)
    (hp : p.Perm repositoryModules) :
    (∀ m ∈ p, ∀ a ∈ m.args, a.isLiteral = true) ∧
      (∀ a b, ¬ DependsOn p a b) ∧ Acyclic p ∧ ReferencesKnown p ∧
      resolve p = .ok p ∧ TopologicallyOrdered p := by
  have hlit : ∀ m ∈ repositoryModules, ∀ a ∈ m.args, a.isLiteral = true := by decide
  have hrefs := perm_repositoryModules_no_refs p hp
  have hedge : ∀ a b, ¬ DependsOn p a b := by
    rintro a b ⟨ha, -, hb⟩
    rw [hrefs a ha] at hb
    simp at hb
  refine ⟨fun m hm => hlit m (hp.mem_iff.1 hm), hedge, ?_, ?_,
    resolve_of_no_refs p hrefs, topologicallyOrdered_of_no_refs p hrefs⟩
  · intro m hm
    obtain ⟨b, hab, -⟩ := Relation.TransGen.head'_iff.1 hm
    exact hedge m b hab
  · intro m hm r hr
    rw [hrefs m hm] at hr
    simp at hr

/-- Witness of C9 at the declaration order marketplace, escrow, factory,
where the marketplace is planned before the escrow. -/
theorem repository_modules_literal_witness :
    [SaleMarketplaceModule, SaleEscrowModule, RWATokenFactoryModule].Perm repositoryModules ∧
      resolve [SaleMarketplaceModule, SaleEscrowModule, RWATokenFactoryModule] =
        .ok [SaleMarketplaceModule, SaleEscrowModule, RWATokenFactoryModule] ∧
      TopologicallyOrdered [SaleMarketplaceModule, SaleEscrowModule, RWATokenFactoryModule] :=
  have hp : [SaleMarketplaceModule, SaleEscrowModule, RWATokenFactoryModule].Perm
      repositoryModules := by decide
  ⟨hp, (repository_modules_literal _ hp).2.2.2.2⟩

/-- C10: for every environment the `mainnet` profile equals the `sepolia`
profile: its url is `https://sepolia.infura.io/v3/` followed by the
rendering of `KEY` (the text `undefined` when unset) and its accounts list
is the one-element list holding `PRIVATE_KEY`. -/
theorem mainnet_equals_sepolia (env : ProcessEnv) :
    (module_exports env).networks.lookup "mainnet" =
        (module_exports env).networks.lookup "sepolia" ∧
      (module_exports env).networks.lookup "mainnet" =
        some { url := "https://sepolia.infura.io/v3/" ++ (env "KEY").getD "undefined"
               accounts := [env "PRIVATE_KEY"] } := by
  have h1 : (module_exports env).networks.lookup "mainnet" =
      some { url := "https://sepolia.infura.io/v3/" ++ (env "KEY").getD "undefined"
             accounts := [env "PRIVATE_KEY"] } := by
    cases h : env "KEY" <;> simp [module_exports, List.lookup, templateString, h]
  have h2 : (module_exports env).networks.lookup "sepolia" =
      some { url := "https://sepolia.infura.io/v3/" ++ (env "KEY").getD "undefined"
             accounts := [env "PRIVATE_KEY"] } := by
    cases h : env "KEY" <;> simp [module_exports, List.lookup, templateString, h]
  exact ⟨h1.trans h2.symm, h1⟩

end FannContract
